import Mathlib

/-!
# Realbase realtime relay: topic codec, filter matcher, fan-out engine, RPC gateway

A shallow embedding of `src/common/messaging/topic.go` and
`src/services/realtime/server/server.go`.

Conventions of the embedding.

* A Go `string` is a Lean `String`: every string the relay handles was decoded
  from JSON text, so it is a sequence of Unicode scalar values.
* A Go `map[string]interface{}` is the list of its entries in the order a
  `range` loop visits them; indexing takes the first entry with the key.
  Statements quantified over all such lists hold in particular for every
  genuine map under every iteration order.
* A run-time panic is an explicit outcome of the function that can raise it.
* Collaborators that live outside the two source files (the JSON decoder, the
  option converter, the transport, the backend API client, the Unicode case
  table) are fields of an environment record or parameters.
-/

namespace Realbase

/-! ## Go standard library pieces used by the sources -/

namespace strings

/-- The segments of `s` around each occurrence of the rune `sep`, on the
character list; there is always at least one segment. -/
def splitChars (sep : Char) : List Char → List (List Char)
  | [] => [[]]
  | c :: cs =>
    if c = sep then [] :: splitChars sep cs
    else
      match splitChars sep cs with
      | [] => [[c]]
      | seg :: segs => (c :: seg) :: segs

/-- The call `strings.Split(s, sep)` for a separator of one rune (the only
use in the sources is the separator `"."`). -/
def Split (s : String) (sep : Char) : List String :=
  (splitChars sep s.data).map String.mk

/-- The call `strings.Join(elems, sep)`. -/
def Join : List String → String → String
  | [], _ => ""
  | [a], _ => a
  | a :: b :: rest, sep => a ++ sep ++ Join (b :: rest) sep

/-- The character-list form of `Join`, used to reason about it. -/
def joinChars : List (List Char) → List Char → List Char
  | [], _ => []
  | [a], _ => a
  | a :: b :: rest, sep => a ++ sep ++ joinChars (b :: rest) sep

end strings

namespace unicode

end unicode

namespace strings

end strings

namespace strconv

/-- The decimal digit character of `d < 10`. -/
def digit (d : Nat) : Char := Char.ofNat ('0'.toNat + d)

/-- The digit loop of `strconv.formatBits` in base 10: digits are produced
from the least significant one and pushed in front of `acc`. -/
def formatBits : Nat → Nat → List Char → List Char
  | 0, _, acc => acc
  | fuel + 1, u, acc =>
    if u < 10 then digit u :: acc
    else formatBits fuel (u / 10) (digit (u % 10) :: acc)

/-- The call `strconv.FormatUint(i, 10)`. The loop runs at most once per
decimal digit, so `i + 1` rounds always suffice. -/
def FormatUint (i : Nat) : String := String.mk (formatBits (i + 1) i [])

end strconv

/-- The Go conversion `string(i)` of an integer: the UTF-8 text of the code
point `i`, and the replacement character U+FFFD when `i` is not a valid code
point. -/
def runeString (i : Nat) : String :=
  if i.isValidChar then String.singleton (Char.ofNat i) else String.singleton (Char.ofNat 0xFFFD)

namespace fmt

/-- The call `fmt.Sprintf(format, args...)` for string operands and the verbs
`%s` and `%v`, which both print a string operand as it is. A verb without an
operand prints Go's `%!s(MISSING)` marker. -/
def sprintfChars : List Char → List String → List Char
  | [], _ => []
  | '%' :: 's' :: rest, a :: args => a.data ++ sprintfChars rest args
  | '%' :: 'v' :: rest, a :: args => a.data ++ sprintfChars rest args
  | '%' :: 's' :: rest, [] => "%!s(MISSING)".data ++ sprintfChars rest []
  | '%' :: 'v' :: rest, [] => "%!v(MISSING)".data ++ sprintfChars rest []
  | c :: rest, args => c :: sprintfChars rest args

/-- The string form of `sprintfChars`. -/
def Sprintf (format : String) (args : List String) : String :=
  String.mk (sprintfChars format.data args)

end fmt

/-! ## JSON values as Go decodes them into `interface{}` -/

/-- A value held in an `interface{}` after `encoding/json` decoding: `nil`,
`bool`, `float64`, `string`, `[]interface{}` or `map[string]interface{}`.
A number is the rational its finite `float64` denotes, so that equality of
numbers is Go's `==` on them (`-0` and `0` are one value). -/
inductive JSONValue where
  | null
  | bool (b : Bool)
  | number (x : ℚ)
  | string (s : String)
  | array (xs : List JSONValue)
  | object (kvs : List (String × JSONValue))

/-- The type `models.JSON`, a `map[string]interface{}`, as its entry list. -/
abbrev JSON := List (String × JSONValue)

/-- The index expression `m[k]` of a Go map: the value stored under `k`, and
the zero value `nil` (JSON `null`) when the key is absent. -/
def JSON.index : JSON → String → JSONValue
  | [], _ => JSONValue.null
  | (k', v) :: rest, k => if k' = k then v else JSON.index rest k

/-- The comma-ok index `v, ok := m[k]` of a Go map: the value stored under
`k`, and `none` when the key is absent. -/
def JSON.get? : JSON → String → Option JSONValue
  | [], _ => none
  | (k', v) :: rest, k => if k' = k then some v else JSON.get? rest k

/-- The keys of a map. -/
def JSON.keys (m : JSON) : List String := m.map Prod.fst

/-- A literal value: `null`, a boolean, a number or a string. -/
def JSONValue.isLiteral : JSONValue → Bool
  | JSONValue.array _ => false
  | JSONValue.object _ => false
  | _ => true

/-- Go's `==` on two interface values. Values of different dynamic types are
unequal; two values of the same comparable type are compared; two slices or
two maps raise the run-time panic "comparing uncomparable type" (`none`). -/
def ifaceEq : JSONValue → JSONValue → Option Bool
  | JSONValue.null, JSONValue.null => some true
  | JSONValue.bool a, JSONValue.bool b => some (decide (a = b))
  | JSONValue.number a, JSONValue.number b => some (decide (a = b))
  | JSONValue.string a, JSONValue.string b => some (decide (a = b))
  | JSONValue.array _, JSONValue.array _ => none
  | JSONValue.object _, JSONValue.object _ => none
  | _, _ => some false

/-- The filter loop of the Publish handler (server.go lines 294-300):
the entries of `filter` are visited in turn and the first one with
`payload[k] != v` ends the loop with `passes = false`.
The result is `none` when a comparison panics. -/
def passes (payload : JSON) : JSON → Option Bool
  | [] => some true
  | (k, v) :: rest =>
    match ifaceEq (payload.index k) v with
    | none => none
    | some true => passes payload rest
    | some false => some false

/-! ## `messaging`: messages and topics -/

namespace messaging

/-- Modelled from the spec: the `Options` of a message, with its optional
`Notify` flag (the type is declared outside the two source files). -/
structure MessageOptions where
  Notify : Option Bool

/-- Modelled from the spec: the `messaging.Message` record (the type is
declared outside the two source files); `Typ` is its field `Type`. -/
structure Message where
  App : String
  Typ : String
  Operation : String
  Token : String
  Payload : JSON
  Options : MessageOptions
  Topic : String

/-- Modelled from the spec: `BuildTopicArbitrary` joins its parts with `.`
(the function is called by server.go and defined outside the two source files). -/
def BuildTopicArbitrary (parts : List String) : String :=
  strings.Join parts "."

end messaging

/-! ## The Redis store -/

namespace redis

/-- What a Redis key holds: a set, a hash, or a value of another type. -/
inductive Value where
  | set (members : List String)
  | hash (fields : List (String × String))
  | other

/-- One key space for all keys, as in Redis. -/
abbrev Client := String → Option Value

/-- The store with key `key` bound to `v`. -/
def bind (db : Client) (key : String) (v : Value) : Client :=
  fun k => if k = key then some v else db k

/-- The field list with `field` set to `value`. -/
def setField : List (String × String) → String → String → List (String × String)
  | [], field, value => [(field, value)]
  | (f, x) :: rest, field, value =>
    if f = field then (f, value) :: rest else (f, x) :: setField rest field value

/-- The field list read at `field`. -/
def getField : List (String × String) → String → Option String
  | [], _ => none
  | (f, x) :: rest, field => if f = field then some x else getField rest field

/-- The command `SADD key member`; on a key of another type Redis answers
WRONGTYPE and changes nothing (the handler ignores the answer). -/
def SAdd (db : Client) (key member : String) : Client :=
  match db key with
  | none => bind db key (Value.set [member])
  | some (Value.set ms) => if member ∈ ms then db else bind db key (Value.set (ms ++ [member]))
  | some _ => db

/-- The command `HSET key field value`; WRONGTYPE on a key of another type. -/
def HSet (db : Client) (key field value : String) : Client :=
  match db key with
  | none => bind db key (Value.hash [(field, value)])
  | some (Value.hash fs) => bind db key (Value.hash (setField fs field value))
  | some _ => db

/-- The value of `SMEMBERS key` as `.Val()` returns it: the members in the
store's iteration order, and no members for a missing key or a key of
another type. -/
def SMembers (db : Client) (key : String) : List String :=
  match db key with
  | some (Value.set ms) => ms
  | _ => []

/-- The value of `HGET key field` as `.Val()` returns it: the empty string
for a missing key, a missing field or a key of another type. -/
def HGet (db : Client) (key field : String) : String :=
  match db key with
  | some (Value.hash fs) => (getField fs field).getD ""
  | _ => ""

/-- The command `DEL key`: the key is removed whatever it holds. -/
def Del (db : Client) (key : String) : Client :=
  fun k => if k = key then none else db k

/-- Whether `SADD key` can succeed: the key is missing or holds a set. -/
def acceptsSet (db : Client) (key : String) : Bool :=
  match db key with
  | none => true
  | some (Value.set _) => true
  | some _ => false

/-- Whether `HSET key` can succeed: the key is missing or holds a hash. -/
def acceptsHash (db : Client) (key : String) : Bool :=
  match db key with
  | none => true
  | some (Value.hash _) => true
  | some _ => false

end redis

/-! ## `models` and `turnpike` types -/

namespace models

/-- Modelled from the spec: `models.SubscribeOptions` (declared outside the
two source files); `Special` is what its method `IsSpecial()` reports. -/
structure SubscribeOptions where
  Special : Bool
  Filter : JSON
  BaseTopic : String
  Topic : String
  ClientId : Nat
  TopicId : String

/-- The method `IsSpecial()`. -/
def SubscribeOptions.IsSpecial (o : SubscribeOptions) : Bool := o.Special

end models

namespace turnpike

/-- The messages the interceptor forwards; `Request` is a `turnpike.ID`, an
unsigned 64-bit number. `Other` stands for every kind the handler has no case for. -/
inductive Message where
  | Subscribe (Request : Nat) (Options : JSON) (Topic : String)
  | Publish (Request : Nat) (Options : JSON) (Topic : String) (Arguments : List JSONValue)
  | Goodbye (Request : Nat)
  | Other

/-- The type `turnpike.CallResult`; a non-empty `Err` is a call failure. -/
structure CallResult where
  Args : List JSONValue
  Err : String

end turnpike

/-! ## The fan-out engine: the event loop of `handlerWebSocketServer` -/

namespace server

/-- The collaborators of the event loop that are defined outside the two
source files. -/
structure Env where
  /-- Modelled from the spec: `models.Convert(msg.Options, &opts)` decodes the
  raw options; `none` is a decoding error. -/
  Convert : JSON → Option models.SubscribeOptions
  /-- Modelled from the spec: `models.String(filter)` serializes a filter. -/
  Serialize : JSON → String
  /-- Modelled from the spec: `models.JSON.FromString` parses a JSON object;
  `none` is a parse error, which leaves the receiving map empty. -/
  FromString : String → Option JSON
  /-- Modelled from the spec: `messageProcessor.Process(m)`, the external hook;
  `true` when it reports an error, which is only logged. -/
  Process : String → Bool
  /-- The transport call `c.Publish(topic, args, nil)`; `true` when it fails. -/
  Publish : String → JSON → Bool

/-- One call of `c.Publish` issued by the engine: the topic, the single
argument, and whether the transport reported a failure. -/
structure PublishCall where
  topic : String
  arg : JSON
  failed : Bool
deriving Inhabited

/-- What the event loop acts on: the registry and the transport publishes
issued so far, oldest first. -/
structure Engine where
  registry : redis.Client
  sent : List PublishCall

/-- How the handling of one event ends: the loop goes on to the next event,
or a run-time panic ends the process. -/
inductive Outcome where
  | next (s : Engine)
  | panic (s : Engine)

/-- The topic split of the Subscribe handler (server.go lines 243-248):
`uniqueTopicId` is `topicArguments[len-1]`, `baseTopic` joins
`topicArguments[:len-1]`. The result is `(baseTopic, uniqueTopicId)`, and
`none` when the index is out of range. -/
def splitSpecialTopic (topic : String) : Option (String × String) :=
  let topicArguments := strings.Split topic '.'
  match topicArguments.getLast? with
  | none => none
  | some uniqueTopicId =>
    some (messaging.BuildTopicArbitrary topicArguments.dropLast, uniqueTopicId)

/-- The case `*turnpike.Subscribe` (server.go lines 233-261). -/
def onSubscribe (env : Env) (s : Engine) (Request : Nat) (Options : JSON) (Topic : String) :
    Outcome :=
  match env.Convert Options with
  | none => Outcome.next s
  | some opts =>
    if opts.IsSpecial then
      let topic := fmt.Sprintf "%v" [Topic]
      match splitSpecialTopic topic with
      | none => Outcome.panic s
      | some (baseTopic, uniqueTopicId) =>
        let clientId := strconv.FormatUint Request
        let opts := { opts with
          BaseTopic := baseTopic, Topic := topic, ClientId := Request, TopicId := uniqueTopicId }
        let r := redis.SAdd s.registry baseTopic clientId
        let r := redis.HSet r clientId "baseTopic" opts.BaseTopic
        let r := redis.HSet r clientId "topic" opts.Topic
        let r := redis.HSet r clientId "clientId" clientId
        let r := redis.HSet r clientId "topicId" opts.TopicId
        let r := redis.HSet r clientId "filter" (env.Serialize opts.Filter)
        Outcome.next { s with registry := r }
    else Outcome.next s

/-- The loop over `clientIds` of the Publish handler (server.go lines 289-313).
A panic in the filter comparison ends the loop and the process; the publishes
issued before it stay issued. -/
def fanOut (env : Env) (msgRaw payload : JSON) : List String → Engine → Outcome
  | [], s => Outcome.next s
  | clientId :: rest, s =>
    let filterString := redis.HGet s.registry clientId "filter"
    let filter := (env.FromString filterString).getD []
    match passes payload filter with
    | none => Outcome.panic s
    | some true =>
      let topic := redis.HGet s.registry clientId "topic"
      let call : PublishCall := { topic := topic, arg := msgRaw, failed := env.Publish topic msgRaw }
      -- a failure is logged and the loop continues, as it does after a success
      if call.failed then fanOut env msgRaw payload rest { s with sent := s.sent ++ [call] }
      else fanOut env msgRaw payload rest { s with sent := s.sent ++ [call] }
    | some false => fanOut env msgRaw payload rest s

/-- The case `*turnpike.Publish` (server.go lines 263-314). -/
def onPublish (env : Env) (s : Engine) (Topic : String) (Arguments : List JSONValue) : Outcome :=
  match Arguments with
  | [] => Outcome.next s
  | JSONValue.string m :: _ =>
    let _apiError := env.Process m
    let topic := Topic
    let clientIds := redis.SMembers s.registry topic
    match env.FromString m with
    | none => Outcome.next s
    | some msgRaw =>
      match msgRaw.index "pld" with
      | JSONValue.object payload => fanOut env msgRaw payload clientIds s
      | _ => Outcome.next s
  | _ :: _ => Outcome.next s

/-- The case `*turnpike.Goodbye` (server.go lines 315-317):
`clientId := string(msg.Request); redisClient.Del(clientId)`, where
`msg.Request` is a `turnpike.ID` as in the Subscribe case, so the conversion
is the integer-to-string conversion of Go. -/
def onGoodbye (s : Engine) (Request : Nat) : Outcome :=
  let clientId := runeString Request
  Outcome.next { s with registry := redis.Del s.registry clientId }

/-- One round of the event loop: the type switch on the intercepted message. -/
def handle (env : Env) (s : Engine) : turnpike.Message → Outcome
  | turnpike.Message.Subscribe Request Options Topic => onSubscribe env s Request Options Topic
  | turnpike.Message.Publish _ _ Topic Arguments => onPublish env s Topic Arguments
  | turnpike.Message.Goodbye Request => onGoodbye s Request
  | turnpike.Message.Other => Outcome.next s

/-- The event loop on a sequence of intercepted messages; a panic ends it. -/
def run (env : Env) : List turnpike.Message → Engine → Outcome
  | [], s => Outcome.next s
  | m :: ms, s =>
    match handle env s m with
    | Outcome.next s' => run env ms s'
    | Outcome.panic s' => Outcome.panic s'

/-- The engine state an outcome carries. -/
def Outcome.engine : Outcome → Engine
  | Outcome.next s => s
  | Outcome.panic s => s

/-- Whether the outcome is a panic. -/
def Outcome.panicked : Outcome → Bool
  | Outcome.next _ => false
  | Outcome.panic _ => true

/-- The registry after one message is handled. -/
def registryAfter (env : Env) (s : Engine) (m : turnpike.Message) : redis.Client :=
  (handle env s m).engine.registry

/-- The registry with no key. -/
def emptyRegistry : redis.Client := fun _ => none

/-- The engine at start-up on an empty registry. -/
def start : Engine := { registry := emptyRegistry, sent := [] }

/-! ## The RPC gateway: `handleRpc` -/

/-- The backend client `getArgs` builds: `client.NewApiClientCached(m.App)`
with its `Token` and `NotifyRealTime` set. -/
structure ApiClient where
  App : String
  Token : String
  NotifyRealTime : Bool

/-- A call on the backend API client, with its arguments. -/
inductive BackendCall where
  | DeleteItem (typ id : String)
  | UpdateItem (typ id : String) (payload : JSON)

/-- The collaborators of the RPC handlers. -/
structure RpcEnv where
  /-- The `json.Marshal` / `json.Unmarshal` round trip that decodes the first
  call argument into a `Message`; an error carries its text. -/
  decode : JSONValue → Except String messaging.Message
  /-- The answer of the backend to a call: a response, or an error text. -/
  backend : ApiClient → BackendCall → Except String JSONValue
  /-- The text `%v` prints for a payload map. -/
  format : JSON → String

/-- How an RPC handler ends: with a call result and the backend calls it
performed, oldest first, or with a run-time panic. -/
inductive RpcOutcome where
  | done (result : turnpike.CallResult) (calls : List (ApiClient × BackendCall))
  | panic

/-- The closure `getArgs` (server.go lines 58-83); `none` is the panic of
`args[0]` on an empty argument list. -/
def getArgs (env : RpcEnv) : List JSONValue →
    Option (Except String (messaging.Message × ApiClient))
  | [] => none
  | incomingMsg :: _ =>
    match env.decode incomingMsg with
    | Except.error err => some (Except.error err)
    | Except.ok m =>
      let c : ApiClient := { App := m.App, Token := m.Token, NotifyRealTime := false }
      let c : ApiClient :=
        match m.Options.Notify with
        | some notify => { c with NotifyRealTime := notify }
        | none => { c with NotifyRealTime := false }
      some (Except.ok (m, c))

/-- The procedure `data.remove` (server.go lines 124-143). -/
def dataRemove (env : RpcEnv) (args : List JSONValue) : RpcOutcome :=
  match getArgs env args with
  | none => RpcOutcome.panic
  | some (Except.error err) => RpcOutcome.done { Args := [], Err := err } []
  | some (Except.ok (m, c)) =>
    match m.Payload.index "_id" with
    | JSONValue.string id =>
      match env.backend c (BackendCall.DeleteItem m.Typ id) with
      | Except.error err =>
        RpcOutcome.done { Args := [], Err := err } [(c, BackendCall.DeleteItem m.Typ id)]
      | Except.ok _ =>
        RpcOutcome.done { Args := [JSONValue.string id], Err := "" }
          [(c, BackendCall.DeleteItem m.Typ id)]
    | _ =>
      RpcOutcome.done
        { Args := [], Err := fmt.Sprintf "Incorrect payload, %v" [env.format m.Payload] } []

/-- The procedure `data.update` (server.go lines 145-164). -/
def dataUpdate (env : RpcEnv) (args : List JSONValue) : RpcOutcome :=
  match getArgs env args with
  | none => RpcOutcome.panic
  | some (Except.error err) => RpcOutcome.done { Args := [], Err := err } []
  | some (Except.ok (m, c)) =>
    match m.Payload.index "_id" with
    | JSONValue.string id =>
      match env.backend c (BackendCall.UpdateItem m.Typ id m.Payload) with
      | Except.error err =>
        RpcOutcome.done { Args := [], Err := err } [(c, BackendCall.UpdateItem m.Typ id m.Payload)]
      | Except.ok _ =>
        RpcOutcome.done { Args := [JSONValue.string id], Err := "" }
          [(c, BackendCall.UpdateItem m.Typ id m.Payload)]
    | _ =>
      RpcOutcome.done
        { Args := [], Err := fmt.Sprintf "Incorrect payload, %v" [env.format m.Payload] } []

end server

/-! ## Derived views of the engine used in the statements -/

namespace server

/-- The filter the Publish handler evaluates for a member (server.go lines
290-292): the stored filter string decoded, and the empty filter when the
string is absent or does not decode. -/
def storedFilter (env : Env) (r : redis.Client) (clientId : String) : JSON :=
  (env.FromString (redis.HGet r clientId "filter")).getD []

/-- The publishes the fan-out owes for one message: one per member whose
stored filter passes the payload, in the order of the members, addressed to
the member's stored `topic` and carrying the whole message object. -/
def owedCalls (env : Env) (r : redis.Client) (msgRaw payload : JSON)
    (clientIds : List String) : List PublishCall :=
  (clientIds.filter (fun c => passes payload (storedFilter env r c) == some true)).map
    (fun c =>
      { topic := redis.HGet r c "topic", arg := msgRaw,
        failed := env.Publish (redis.HGet r c "topic") msgRaw })

end server

/-! ## Concrete collaborators for the scenarios -/

namespace scenario

/-- The raw options of a special subscription with the given filter. -/
def specialOptions (filter : JSON) : JSON :=
  [("special", JSONValue.bool true), ("filter", JSONValue.object filter)]

/-- An option converter: the filter is read from `"filter"`, the special
flag from `"special"`. -/
def Convert (o : JSON) : Option models.SubscribeOptions :=
  match o.index "filter" with
  | JSONValue.object f =>
    some { Special := (match o.index "special" with
                       | JSONValue.bool b => b
                       | _ => false),
           Filter := f, BaseTopic := "", Topic := "", ClientId := 0, TopicId := "" }
  | _ => none

/-- The JSON text of the three filters the scenarios use. -/
def Serialize : JSON → String
  | [] => "\x7b\x7d"
  | [("status", JSONValue.string "done")] => "\x7b\"status\":\"done\"\x7d"
  | [("a", JSONValue.object [])] => "\x7b\"a\":\x7b\x7d\x7d"
  | _ => "?"

/-- The JSON decoder on the texts the scenarios use; every other text is a
parse error. -/
def FromString (s : String) : Option JSON :=
  if s = "\x7b\x7d" then some []
  else if s = "\x7b\"status\":\"done\"\x7d" then some [("status", JSONValue.string "done")]
  else if s = "\x7b\"a\":\x7b\x7d\x7d" then some [("a", JSONValue.object [])]
  else if s = "\x7b\"pld\":\x7b\"status\":\"done\"\x7d\x7d" then
    some [("pld", JSONValue.object [("status", JSONValue.string "done")])]
  else if s = "\x7b\"pld\":\x7b\"status\":\"todo\"\x7d\x7d" then
    some [("pld", JSONValue.object [("status", JSONValue.string "todo")])]
  else if s = "\x7b\"pld\":\x7b\"a\":\x7b\x7d\x7d\x7d" then
    some [("pld", JSONValue.object [("a", JSONValue.object [])])]
  else none

/-- The collaborators of the scenarios: the hook reports no error and every
transport publish succeeds. -/
def env : server.Env :=
  { Convert := Convert, Serialize := Serialize, FromString := FromString,
    Process := fun _ => false, Publish := fun _ _ => false }

/-- The topics of the publishes an outcome has issued, oldest first. -/
def sentTopics (o : server.Outcome) : List String :=
  o.engine.sent.map server.PublishCall.topic

/-- Collaborators of the RPC handlers for the scenarios: the first argument
is an object whose `"payload"` entry is the payload of a message of
application `"x"` and type `"todos"`; the backend accepts every call. -/
def rpcEnv : server.RpcEnv :=
  { decode := fun v =>
      match v with
      | JSONValue.object o =>
        Except.ok
          { App := "x", Typ := "todos", Operation := "", Token := "",
            Payload := (match JSON.index o "payload" with
                        | JSONValue.object p => p
                        | _ => []),
            Options := { Notify := none }, Topic := "" }
      | _ => Except.error "json: cannot unmarshal into Go value of type messaging.Message",
    backend := fun _ _ => Except.ok JSONValue.null,
    format := fun p =>
      match p with
      | [] => "map[]"
      | [("title", JSONValue.string "a")] => "map[title:a]"
      | _ => "map[...]" }

end scenario

/-! # Theorems -/

open server

/-! ## Splitting and joining -/

namespace strings

theorem Join_data (ss : List String) (sep : String) :
    (Join ss sep).data = joinChars (ss.map String.data) sep.data := by
  induction ss with
  | nil => rfl
  | cons a rest ih =>
    cases rest with
    | nil => rfl
    | cons b rest =>
      simp only [Join, List.map_cons, joinChars, String.data_append]
      simp only [List.map_cons] at ih
      rw [ih]

/-- The shape of a split: the segments are `init ++ [last]`, the last one has
no separator, and the input is recovered by joining. -/
theorem splitChars_shape (sep : Char) (l : List Char) :
    ∃ init last, splitChars sep l = init ++ [last] ∧ sep ∉ last ∧
      (sep ∉ l → init = [] ∧ last = l) ∧
      (sep ∈ l → init ≠ [] ∧ l = joinChars init [sep] ++ sep :: last) := by
  induction l with
  | nil => exact ⟨[], [], rfl, by simp, by simp, by simp⟩
  | cons c cs ih =>
    obtain ⟨init, last, hsplit, hlast, hno, hyes⟩ := ih
    by_cases hc : c = sep
    · refine ⟨[] :: init, last, ?_, hlast, ?_, ?_⟩
      · simp [splitChars, hc, hsplit]
      · intro h; exact absurd (by simp [hc]) h
      · intro _
        refine ⟨by simp, ?_⟩
        by_cases hcs : sep ∈ cs
        · obtain ⟨hne, hcs'⟩ := hyes hcs
          cases init with
          | nil => exact absurd rfl hne
          | cons i0 irest =>
            simp only [joinChars, List.nil_append, List.singleton_append, List.cons_append]
            rw [hc, ← hcs']
        · obtain ⟨hi, hl⟩ := hno hcs
          subst hi; subst hl
          simp [joinChars, hc]
    · cases init with
      | nil =>
        refine ⟨[], c :: last, ?_, ?_, ?_, ?_⟩
        · simp [splitChars, hc, hsplit]
        · simp [hlast, Ne.symm hc]
        · intro h
          have : sep ∉ cs := fun h' => h (List.mem_cons_of_mem _ h')
          simp [(hno this).2]
        · intro h
          have : sep ∈ cs := by
            rcases List.mem_cons.1 h with h' | h'
            · exact absurd h'.symm hc
            · exact h'
          exact absurd rfl (hyes this).1
      | cons i0 irest =>
        refine ⟨(c :: i0) :: irest, last, ?_, hlast, ?_, ?_⟩
        · simp [splitChars, hc, hsplit]
        · intro h
          have : sep ∉ cs := fun h' => h (List.mem_cons_of_mem _ h')
          exact absurd (hno this).1 (by simp)
        · intro h
          have : sep ∈ cs := by
            rcases List.mem_cons.1 h with h' | h'
            · exact absurd h'.symm hc
            · exact h'
          refine ⟨by simp, ?_⟩
          have h2 := (hyes this).2
          cases irest with
          | nil => simpa [joinChars] using h2
          | cons i1 irest => simpa [joinChars] using h2

theorem splitChars_ne_nil (sep : Char) (l : List Char) : splitChars sep l ≠ [] := by
  obtain ⟨init, last, h, -⟩ := splitChars_shape sep l
  simp [h]

theorem splitChars_of_not_mem (sep : Char) (l : List Char) (h : sep ∉ l) :
    splitChars sep l = [l] := by
  obtain ⟨init, last, hs, -, hno, -⟩ := splitChars_shape sep l
  obtain ⟨hi, hl⟩ := hno h
  simp [hs, hi, hl]

theorem splitChars_append (sep : Char) (a b : List Char) :
    splitChars sep (a ++ sep :: b) = splitChars sep a ++ splitChars sep b := by
  induction a with
  | nil => simp [splitChars]
  | cons c a ih =>
    by_cases hc : c = sep
    · simp [splitChars, hc, ih]
    · have hne := splitChars_ne_nil sep a
      cases hsa : splitChars sep a with
      | nil => exact absurd hsa hne
      | cons seg segs =>
        simp [splitChars, hc, ih, hsa]

theorem joinChars_snoc (init : List (List Char)) (last sep : List Char) (h : init ≠ []) :
    joinChars (init ++ [last]) sep = joinChars init sep ++ sep ++ last := by
  induction init with
  | nil => exact absurd rfl h
  | cons a rest ih =>
    cases rest with
    | nil => simp [joinChars]
    | cons b rest =>
      have := ih (by simp)
      simp only [List.cons_append] at this
      simp only [List.cons_append, joinChars]
      simp [this]

theorem joinChars_splitChars (sep : Char) (l : List Char) :
    joinChars (splitChars sep l) [sep] = l := by
  obtain ⟨init, last, hs, -, hno, hyes⟩ := splitChars_shape sep l
  by_cases h : sep ∈ l
  · obtain ⟨hne, hl⟩ := hyes h
    rw [hs, joinChars_snoc _ _ _ hne]
    simp [← hl]
  · rw [splitChars_of_not_mem sep l h]; rfl

theorem Join_map_mk (segs : List (List Char)) (sep : String) :
    Join (segs.map String.mk) sep = String.mk (joinChars segs sep.data) := by
  apply String.ext
  rw [Join_data]
  simp [List.map_map, Function.comp_def]

end strings

namespace server

theorem splitSpecialTopic_eq (topic : String) :
    ∃ init last, strings.splitChars '.' topic.data = init ++ [last] ∧
      splitSpecialTopic topic =
        some (String.mk (strings.joinChars init ['.']), String.mk last) := by
  obtain ⟨init, last, hs, -⟩ := strings.splitChars_shape '.' topic.data
  refine ⟨init, last, hs, ?_⟩
  simp only [splitSpecialTopic, strings.Split, hs, List.map_append, List.map_cons, List.map_nil,
    List.getLast?_append, List.getLast?_singleton, List.dropLast_concat,
    messaging.BuildTopicArbitrary, strings.Join_map_mk]
  rfl

theorem splitSpecialTopic_append (baseTopic uniqueId : String) (h : '.' ∉ uniqueId.data) :
    splitSpecialTopic (baseTopic ++ "." ++ uniqueId) = some (baseTopic, uniqueId) := by
  have hd : (baseTopic ++ "." ++ uniqueId).data = baseTopic.data ++ '.' :: uniqueId.data := by
    simp [String.data_append]
  have hs : strings.splitChars '.' (baseTopic ++ "." ++ uniqueId).data =
      strings.splitChars '.' baseTopic.data ++ [uniqueId.data] := by
    rw [hd, strings.splitChars_append, strings.splitChars_of_not_mem '.' _ h]
  simp only [splitSpecialTopic, strings.Split, hs, List.map_append, List.map_cons, List.map_nil,
    List.getLast?_append, List.getLast?_singleton, List.dropLast_concat,
    messaging.BuildTopicArbitrary, strings.Join_map_mk]
  simp [strings.joinChars_splitChars]

end server

/-- C8. The topic split of the Subscribe handler: for every topic the split
succeeds, `uniqueId` has no `.`, a topic with a `.` is `baseTopic ++ "." ++ uniqueId`
(so `uniqueId` is the text after the last `.` and `baseTopic` the text before
it) and `BuildTopicArbitrary` on the two parts gives the topic back, and a
topic without `.` splits into the empty `baseTopic` and the whole topic;
`"room42.topicXYZ"` splits into `("room42", "topicXYZ")`. -/
theorem splitSpecialTopic_spec :
    (∀ topic : String, ∃ baseTopic uniqueId,
      server.splitSpecialTopic topic = some (baseTopic, uniqueId) ∧
      '.' ∉ uniqueId.data ∧
      ('.' ∈ topic.data →
        baseTopic ++ "." ++ uniqueId = topic ∧
        messaging.BuildTopicArbitrary [baseTopic, uniqueId] = topic) ∧
      ('.' ∉ topic.data → baseTopic = "" ∧ uniqueId = topic)) ∧
    server.splitSpecialTopic "room42.topicXYZ" = some ("room42", "topicXYZ") := by
  refine ⟨?_, by decide⟩
  intro topic
  obtain ⟨init, last, hs, hlast, hno, hyes⟩ := strings.splitChars_shape '.' topic.data
  obtain ⟨init', last', hs', heq⟩ := server.splitSpecialTopic_eq topic
  have hil : init' = init ∧ last' = last := by
    have := hs.symm.trans hs'
    simpa using (List.append_inj' this rfl).imp Eq.symm (fun h => (by simpa using h.symm))
  obtain ⟨rfl, rfl⟩ := hil
  refine ⟨_, _, heq, hlast, ?_, ?_⟩
  · intro h
    obtain ⟨-, hl⟩ := hyes h
    have h1 : String.mk (strings.joinChars init' ['.']) ++ "." ++ String.mk last' = topic := by
      apply String.ext
      simp [String.data_append, hl]
    exact ⟨h1, by simpa [messaging.BuildTopicArbitrary, strings.Join] using h1⟩
  · intro h
    obtain ⟨hi, hl⟩ := hno h
    subst hi
    exact ⟨rfl, by simp [hl]⟩

namespace unicode

end unicode

namespace messaging

end messaging

theorem ifaceEq_literal_true (x v : JSONValue) (hv : v.isLiteral = true) :
    ifaceEq x v = some true ↔ x = v := by
  cases x <;> cases v <;> simp_all [ifaceEq, JSONValue.isLiteral]

theorem ifaceEq_literal_total (x v : JSONValue) (hv : v.isLiteral = true) :
    ifaceEq x v = some true ∨ ifaceEq x v = some false := by
  cases x <;> cases v <;> simp_all [ifaceEq, JSONValue.isLiteral] <;> exact em _

theorem ifaceEq_null_left (v : JSONValue) (h : ifaceEq JSONValue.null v = some true) :
    v = JSONValue.null := by
  cases v <;> simp_all [ifaceEq]

theorem JSON.index_of_not_mem_keys (m : JSON) (k : String) (h : k ∉ m.keys) :
    m.index k = JSONValue.null := by
  induction m with
  | nil => rfl
  | cons kv rest ih =>
    obtain ⟨k', v⟩ := kv
    simp only [JSON.keys, List.map_cons, List.mem_cons, not_or] at h
    simp only [JSON.index, if_neg (Ne.symm h.1)]
    exact ih h.2

theorem JSON.index_mem_of_mem_keys (m : JSON) (k : String) (h : k ∈ m.keys) :
    (k, m.index k) ∈ m := by
  induction m with
  | nil => simp [JSON.keys] at h
  | cons kv rest ih =>
    obtain ⟨k', v⟩ := kv
    by_cases hk : k' = k
    · subst hk
      simp [JSON.index]
    · have hrest : k ∈ JSON.keys rest := by
        simp only [JSON.keys, List.map_cons, List.mem_cons] at h
        rcases h with h | h
        · exact absurd h.symm hk
        · exact h
      simp only [JSON.index, if_neg hk, List.mem_cons]
      exact Or.inr (ih hrest)

theorem JSON.index_eq_of_mem (m : JSON) (k : String) (v : JSONValue)
    (hnodup : m.keys.Nodup) (h : (k, v) ∈ m) : m.index k = v := by
  induction m with
  | nil => simp at h
  | cons kv rest ih =>
    obtain ⟨k', v'⟩ := kv
    simp only [JSON.keys, List.map_cons, List.nodup_cons] at hnodup
    rcases List.mem_cons.1 h with h | h
    · injection h with h1 h2
      subst h1; subst h2
      simp [JSON.index]
    · have hk : k' ≠ k := by
        intro hk
        subst hk
        exact hnodup.1 (List.mem_map.2 ⟨(k', v), h, rfl⟩)
      simp only [JSON.index, if_neg hk]
      exact ih hnodup.2 h

theorem JSON.index_eq_iff_get? (m : JSON) (k : String) (v : JSONValue) :
    m.index k = v ↔ m.get? k = some v ∨ (m.get? k = none ∧ v = JSONValue.null) := by
  induction m with
  | nil =>
    show JSONValue.null = v ↔ ((none : Option JSONValue) = some v ∨
      ((none : Option JSONValue) = none ∧ v = JSONValue.null))
    constructor
    · intro h; exact Or.inr ⟨rfl, h.symm⟩
    · rintro (h | h)
      · exact absurd h (by simp)
      · exact h.2.symm
  | cons kv rest ih =>
    obtain ⟨k', v'⟩ := kv
    by_cases hk : k' = k
    · simp [JSON.index, JSON.get?, hk]
    · simp only [JSON.index, JSON.get?, if_neg hk]
      exact ih

theorem passes_true_iff (payload filter : JSON) :
    passes payload filter = some true ↔
      ∀ k v, (k, v) ∈ filter → ifaceEq (payload.index k) v = some true := by
  induction filter with
  | nil => simp [passes]
  | cons kv rest ih =>
    obtain ⟨k, v⟩ := kv
    simp only [passes, List.mem_cons, Prod.mk.injEq]
    cases h : ifaceEq (payload.index k) v with
    | none =>
      constructor
      · intro h'; simp at h'
      · intro h'
        have := h' k v (Or.inl ⟨rfl, rfl⟩)
        simp [h] at this
    | some b =>
      cases b with
      | false =>
        constructor
        · intro h'; simp at h'
        · intro h'
          have := h' k v (Or.inl ⟨rfl, rfl⟩)
          simp [h] at this
      | true =>
        simp only [ih]
        constructor
        · rintro hr k' v' (⟨rfl, rfl⟩ | hmem)
          · exact h
          · exact hr k' v' hmem
        · intro hr k' v' hmem
          exact hr k' v' (Or.inr hmem)

theorem passes_total_of_literal (payload filter : JSON)
    (hlit : ∀ k v, (k, v) ∈ filter → v.isLiteral = true) :
    passes payload filter = some true ∨ passes payload filter = some false := by
  induction filter with
  | nil => simp [passes]
  | cons kv rest ih =>
    obtain ⟨k, v⟩ := kv
    have hv := hlit k v (List.mem_cons_self _ _)
    have ih' := ih (fun k' v' h => hlit k' v' (List.mem_cons_of_mem _ h))
    simp only [passes]
    rcases ifaceEq_literal_total (payload.index k) v hv with h | h <;> simp [h, ih']

theorem passes_congr (payload payload' filter : JSON)
    (h : ∀ k, k ∈ filter.keys → payload'.index k = payload.index k) :
    passes payload' filter = passes payload filter := by
  induction filter with
  | nil => rfl
  | cons kv rest ih =>
    obtain ⟨k, v⟩ := kv
    have hk := h k (by simp [JSON.keys])
    have ih' := ih (fun k' hk' => h k' (by simp only [JSON.keys, List.map_cons, List.mem_cons]; exact Or.inr hk'))
    simp only [passes, hk, ih']

/-- C2, as stated, fails: the filter holds the literal `null` under
`"deleted"`, the payload has no `"deleted"` key and so no value at that key
that could equal the filter's value, yet the payload passes. -/
theorem passes_null_filter_without_payload_value :
    JSONValue.isLiteral JSONValue.null = true ∧
    JSON.get? [("status", JSONValue.string "done")] "deleted" = none ∧
    passes [("status", JSONValue.string "done")] [("deleted", JSONValue.null)] = some true ∧
    ¬ (passes [("status", JSONValue.string "done")] [("deleted", JSONValue.null)] = some true ↔
        ∀ k v, (k, v) ∈ [("deleted", JSONValue.null)] →
          JSON.get? [("status", JSONValue.string "done")] k = some v) := by
  refine ⟨rfl, rfl, rfl, ?_⟩
  intro h
  have h1 := h.1 rfl "deleted" JSONValue.null (List.mem_singleton.2 rfl)
  exact absurd h1 (by simp [JSON.get?])

/-- C2, amended. For a filter whose values are literals, the matcher always
answers, and it answers "passes" exactly when for every entry `(k, v)` of the
filter the map index `payload[k]` equals `v`, where an absent key reads as
`null`: the payload holds `v` under `k`, or it has no key `k` and `v` is
`null`. For a filter with distinct keys, as every Go map is, that is: for
every key of the filter the payload's index at the key equals the filter's
index at the key. The empty filter passes every payload, and two payloads
that agree on the keys of the filter get the same answer, so the other keys
of a payload have no effect. -/
theorem passes_iff_all_filter_keys_equal (filter payload : JSON)
    (hlit : ∀ k v, (k, v) ∈ filter → v.isLiteral = true) :
    (passes payload filter = some true ↔ ∀ k v, (k, v) ∈ filter → payload.index k = v) ∧
    (passes payload filter = some false ↔ ¬ ∀ k v, (k, v) ∈ filter → payload.index k = v) ∧
    (passes payload filter = some true ↔
      ∀ k v, (k, v) ∈ filter →
        payload.get? k = some v ∨ (payload.get? k = none ∧ v = JSONValue.null)) ∧
    (filter.keys.Nodup →
      (passes payload filter = some true ↔
        ∀ k, k ∈ filter.keys → payload.index k = filter.index k)) ∧
    (∀ payload' : JSON, passes payload' [] = some true) ∧
    (∀ payload' : JSON, (∀ k, k ∈ filter.keys → payload'.index k = payload.index k) →
      passes payload' filter = passes payload filter) := by
  have h1 : passes payload filter = some true ↔
      ∀ k v, (k, v) ∈ filter → payload.index k = v := by
    rw [passes_true_iff]
    constructor
    · intro h k v hmem
      exact (ifaceEq_literal_true _ _ (hlit k v hmem)).1 (h k v hmem)
    · intro h k v hmem
      exact (ifaceEq_literal_true _ _ (hlit k v hmem)).2 (h k v hmem)
  refine ⟨h1, ?_, ?_, ?_, fun _ => rfl,
    fun payload' h => passes_congr payload payload' filter h⟩
  · rw [← h1]
    rcases passes_total_of_literal payload filter hlit with h | h <;> simp [h]
  · rw [h1]
    constructor
    · intro h k v hmem
      exact (JSON.index_eq_iff_get? payload k v).1 (h k v hmem)
    · intro h k v hmem
      exact (JSON.index_eq_iff_get? payload k v).2 (h k v hmem)
  · intro hnodup
    rw [h1]
    constructor
    · intro h k hk
      exact h k _ (JSON.index_mem_of_mem_keys filter k hk)
    · intro h k v hmem
      rw [h k (List.mem_map.2 ⟨(k, v), hmem, rfl⟩)]
      exact JSON.index_eq_of_mem filter k v hnodup hmem

/-- C2 amended, at a concrete input: the filter `status = "done"` passes the payload
with `status = "done"` and `x = 1`, and rejects the payload with `status = "todo"`. -/
theorem passes_iff_all_filter_keys_equal_witness :
    passes [("status", JSONValue.string "done"), ("x", JSONValue.number 1)]
      [("status", JSONValue.string "done")] = some true ∧
    passes [("status", JSONValue.string "todo")]
      [("status", JSONValue.string "done")] = some false :=
  ⟨(passes_iff_all_filter_keys_equal [("status", JSONValue.string "done")]
      [("status", JSONValue.string "done"), ("x", JSONValue.number 1)]
      (by simp [JSONValue.isLiteral])).1.2 (by simp [JSON.index]),
   (passes_iff_all_filter_keys_equal [("status", JSONValue.string "done")]
      [("status", JSONValue.string "todo")]
      (by simp [JSONValue.isLiteral])).2.1.2 (by simp [JSON.index])⟩

/-- C7, as stated, fails: the filter that holds `null` under `"status"` is
not empty and its key is absent from the empty payload, yet the payload passes. -/
theorem passes_missing_key_null_filter :
    "status" ∈ JSON.keys [("status", JSONValue.null)] ∧
    "status" ∉ JSON.keys [] ∧
    passes [] [("status", JSONValue.null)] = some true := by
  decide

/-- C7, amended. If some key of the filter is absent from the payload and the
filter's value for that key is not `null`, the payload does not pass. -/
theorem passes_missing_key_rejected (filter payload : JSON) (k : String) (v : JSONValue)
    (hmem : (k, v) ∈ filter) (hv : v ≠ JSONValue.null) (habsent : k ∉ payload.keys) :
    passes payload filter ≠ some true := by
  intro h
  have := (passes_true_iff payload filter).1 h k v hmem
  rw [JSON.index_of_not_mem_keys payload k habsent] at this
  exact hv (ifaceEq_null_left v this)

/-- C7 amended, at a concrete input: the filter `status = "done"` does not
pass a payload that has no `"status"` key. -/
theorem passes_missing_key_rejected_witness :
    passes [("x", JSONValue.number 1)] [("status", JSONValue.string "done")] ≠ some true :=
  passes_missing_key_rejected [("status", JSONValue.string "done")] [("x", JSONValue.number 1)]
    "status" (JSONValue.string "done") (by simp) (by simp) (by decide)

/-! ## Decimal text and the integer-to-string conversion -/

namespace strconv

theorem formatBits_length (fuel u : Nat) (acc : List Char) (h : 0 < fuel) :
    acc.length + 1 ≤ (formatBits fuel u acc).length := by
  induction fuel generalizing u acc with
  | zero => exact absurd h (by decide)
  | succ k ih =>
    simp only [formatBits]
    split
    · simp
    · cases k with
      | zero => simp [formatBits]
      | succ k' =>
        have := ih (u / 10) (digit (u % 10) :: acc) (Nat.succ_pos _)
        simp only [List.length_cons] at this
        omega

theorem digit_eq_digitChar (d : Nat) (h : d < 10) : digit d = Nat.digitChar d := by
  interval_cases d <;> decide

theorem formatBits_eq_toDigitsCore (fuel u : Nat) (acc : List Char) :
    formatBits fuel u acc = Nat.toDigitsCore 10 fuel u acc := by
  induction fuel generalizing u acc with
  | zero => rfl
  | succ k ih =>
    simp only [formatBits, Nat.toDigitsCore]
    have hd : digit (u % 10) = Nat.digitChar (u % 10) :=
      digit_eq_digitChar _ (Nat.mod_lt _ (by decide))
    by_cases hu : u < 10
    · have h0 : u / 10 = 0 := Nat.div_eq_of_lt hu
      have hm : u % 10 = u := Nat.mod_eq_of_lt hu
      rw [hm] at hd
      simp [hu, h0, hd, hm]
    · have h0 : u / 10 ≠ 0 := by omega
      simp [hu, h0, ih, hd]

/-- The model of `FormatUint` is the decimal representation of the number. -/
theorem FormatUint_eq_repr (i : Nat) : FormatUint i = Nat.repr i := by
  simp [FormatUint, Nat.repr, Nat.toDigits, formatBits_eq_toDigitsCore, List.asString]

end strconv

theorem runeString_ne_FormatUint (n : Nat) : runeString n ≠ strconv.FormatUint n := by
  intro h
  have hd := congrArg String.data h
  by_cases hn : n < 10
  · revert hd
    interval_cases n <;> decide
  · have hlen : 2 ≤ (strconv.FormatUint n).data.length := by
      have h10 : ¬ n < 10 := hn
      have : (strconv.FormatUint n).data =
          strconv.formatBits n (n / 10) [strconv.digit (n % 10)] := by
        simp [strconv.FormatUint, strconv.formatBits, h10]
      rw [this]
      have := strconv.formatBits_length n (n / 10) [strconv.digit (n % 10)] (by omega)
      simpa using this
    have hone : (runeString n).data.length = 1 := by
      unfold runeString
      split <;> rfl
    rw [hd] at hone
    omega

/-! ## The store -/

namespace redis

theorem getField_setField (fs : List (String × String)) (f v f' : String) :
    getField (setField fs f v) f' = if f' = f then some v else getField fs f' := by
  induction fs with
  | nil =>
    by_cases h : f' = f
    · simp [setField, getField, h]
    · simp [setField, getField, h, Ne.symm h]
  | cons p rest ih =>
    obtain ⟨g, x⟩ := p
    by_cases hg : g = f
    · subst hg
      by_cases h : f' = g
      · simp [setField, getField, h]
      · simp [setField, getField, h, Ne.symm h]
    · by_cases h : f' = f
      · subst h
        simp [setField, getField, hg, ih]
      · by_cases hg' : g = f'
        · simp [setField, getField, hg, hg', h]
        · simp [setField, getField, hg, hg', h, ih]

theorem SAdd_other (db : Client) (key member k : String) (h : k ≠ key) :
    SAdd db key member k = db k := by
  unfold SAdd
  cases hk : db key with
  | none => simp [bind, h]
  | some v =>
    cases v with
    | set ms => by_cases hm : member ∈ ms <;> simp [bind, h, hm]
    | hash fs => rfl
    | other => rfl

theorem HSet_other (db : Client) (key field value k : String) (h : k ≠ key) :
    HSet db key field value k = db k := by
  unfold HSet
  cases hk : db key with
  | none => simp [bind, h]
  | some v =>
    cases v with
    | hash fs => simp [bind, h]
    | set ms => rfl
    | other => rfl

theorem mem_SMembers_SAdd (db : Client) (key member : String)
    (h : acceptsSet db key = true) : member ∈ SMembers (SAdd db key member) key := by
  unfold acceptsSet at h
  unfold SMembers SAdd
  cases hk : db key with
  | none => simp [bind]
  | some v =>
    cases v with
    | set ms =>
      by_cases hm : member ∈ ms
      · simp [hm, hk]
      · simp [hm, bind]
    | hash fs => simp [hk] at h
    | other => simp [hk] at h

theorem SMembers_HSet_other (db : Client) (key field value k : String) (h : k ≠ key) :
    SMembers (HSet db key field value) k = SMembers db k := by
  unfold SMembers
  rw [HSet_other db key field value k h]

theorem acceptsHash_HSet (db : Client) (key field value : String)
    (h : acceptsHash db key = true) : acceptsHash (HSet db key field value) key = true := by
  unfold acceptsHash at h ⊢
  unfold HSet
  cases hk : db key with
  | none => simp [bind]
  | some v =>
    cases v with
    | hash fs => simp [bind]
    | set ms => simp [hk] at h
    | other => simp [hk] at h

theorem HGet_HSet (db : Client) (key field value field' : String)
    (h : acceptsHash db key = true) :
    HGet (HSet db key field value) key field' =
      if field' = field then value else HGet db key field' := by
  unfold acceptsHash at h
  unfold HGet HSet
  cases hk : db key with
  | none =>
    by_cases hf : field' = field
    · simp [bind, getField, hf]
    · simp [bind, getField, hf, Ne.symm hf]
  | some v =>
    cases v with
    | hash fs =>
      by_cases hf : field' = field
      · simp [bind, getField_setField, hf]
      · simp [bind, getField_setField, hf]
    | set ms => simp [hk] at h
    | other => simp [hk] at h

theorem acceptsHash_SAdd_other (db : Client) (key member k : String) (h : k ≠ key) :
    acceptsHash (SAdd db key member) k = acceptsHash db k := by
  unfold acceptsHash
  rw [SAdd_other db key member k h]

theorem SMembers_Del_other (db : Client) (key k : String) (h : k ≠ key) :
    SMembers (Del db key) k = SMembers db k := by
  simp [SMembers, Del, h]

theorem HGet_Del_other (db : Client) (key k field : String) (h : k ≠ key) :
    HGet (Del db key) k field = HGet db k field := by
  simp [HGet, Del, h]

end redis


namespace fmt

theorem Sprintf_v (s : String) : Sprintf "%v" [s] = s := by
  apply String.ext
  have hf : "%v".data = ['%', 'v'] := rfl
  simp [Sprintf, hf, sprintfChars]

end fmt

/-- C3, as stated, fails: the topic `"7.x"` has two segments, yet after a
special Subscribe of requestor 7 on the empty registry the record keyed `"7"`
has no `topicId` (the set of base topic `"7"` took the key first). -/
theorem subscribe_key_clash :
    strings.Split "7.x" '.' = ["7", "x"] ∧
    strconv.FormatUint 7 = "7" ∧
    "7" ∈ redis.SMembers
      (registryAfter scenario.env start
        (turnpike.Message.Subscribe 7 (scenario.specialOptions []) "7.x")) "7" ∧
    redis.HGet
      (registryAfter scenario.env start
        (turnpike.Message.Subscribe 7 (scenario.specialOptions []) "7.x"))
      "7" "topicId" = "" := by
  decide

/-- The registry a special Subscribe leaves when the topic is
`baseTopic ++ "." ++ topicId` with no `.` in `topicId`: one `SADD` and five
`HSET`s, and no panic. -/
theorem handle_Subscribe_special (env : Env) (s : Engine) (n : Nat) (options : JSON)
    (opts : models.SubscribeOptions) (baseTopic topicId : String)
    (hconv : env.Convert options = some opts) (hspecial : opts.IsSpecial = true)
    (hid : '.' ∉ topicId.data) :
    handle env s (turnpike.Message.Subscribe n options (baseTopic ++ "." ++ topicId)) =
      Outcome.next { s with registry :=
        (redis.HSet (redis.HSet (redis.HSet (redis.HSet (redis.HSet
          (redis.SAdd s.registry baseTopic (strconv.FormatUint n))
          (strconv.FormatUint n) "baseTopic" baseTopic)
          (strconv.FormatUint n) "topic" (baseTopic ++ "." ++ topicId))
          (strconv.FormatUint n) "clientId" (strconv.FormatUint n))
          (strconv.FormatUint n) "topicId" topicId)
          (strconv.FormatUint n) "filter" (env.Serialize opts.Filter)) } := by
  simp only [handle, onSubscribe, hconv, hspecial, if_true, fmt.Sprintf_v,
    splitSpecialTopic_append baseTopic topicId hid]

/-- C3, amended. Let the topic be `baseTopic ++ "." ++ topicId` with no `.` in
`topicId`, and let the subscription be special. If the registry key `baseTopic`
is missing or holds a set, the key of the decimal string of `n` is missing or
holds a hash, and the two keys differ, then the Subscribe is handled without
panic, the decimal string of `n` is a member of the set `baseTopic`, and the
hash record of that id holds the five fields `baseTopic`, `topic`, `clientId`,
`topicId` and `filter` (the serialized filter). -/
theorem subscribe_then_lookup (env : Env) (s : Engine) (n : Nat) (options : JSON)
    (opts : models.SubscribeOptions) (baseTopic topicId : String)
    (hconv : env.Convert options = some opts) (hspecial : opts.IsSpecial = true)
    (hid : '.' ∉ topicId.data)
    (hset : redis.acceptsSet s.registry baseTopic = true)
    (hhash : redis.acceptsHash s.registry (strconv.FormatUint n) = true)
    (hne : baseTopic ≠ strconv.FormatUint n) :
    (handle env s
      (turnpike.Message.Subscribe n options (baseTopic ++ "." ++ topicId))).panicked = false ∧
    strconv.FormatUint n ∈ redis.SMembers
      (registryAfter env s
        (turnpike.Message.Subscribe n options (baseTopic ++ "." ++ topicId))) baseTopic ∧
    redis.HGet
      (registryAfter env s
        (turnpike.Message.Subscribe n options (baseTopic ++ "." ++ topicId)))
      (strconv.FormatUint n) "baseTopic" = baseTopic ∧
    redis.HGet
      (registryAfter env s
        (turnpike.Message.Subscribe n options (baseTopic ++ "." ++ topicId)))
      (strconv.FormatUint n) "topic" = baseTopic ++ "." ++ topicId ∧
    redis.HGet
      (registryAfter env s
        (turnpike.Message.Subscribe n options (baseTopic ++ "." ++ topicId)))
      (strconv.FormatUint n) "clientId" = strconv.FormatUint n ∧
    redis.HGet
      (registryAfter env s
        (turnpike.Message.Subscribe n options (baseTopic ++ "." ++ topicId)))
      (strconv.FormatUint n) "topicId" = topicId ∧
    redis.HGet
      (registryAfter env s
        (turnpike.Message.Subscribe n options (baseTopic ++ "." ++ topicId)))
      (strconv.FormatUint n) "filter" = env.Serialize opts.Filter := by
  have hne' : strconv.FormatUint n ≠ baseTopic := Ne.symm hne
  have h0 : redis.acceptsHash (redis.SAdd s.registry baseTopic (strconv.FormatUint n))
      (strconv.FormatUint n) = true := by
    rw [redis.acceptsHash_SAdd_other _ _ _ _ hne']; exact hhash
  have h1 := redis.acceptsHash_HSet _ _ "baseTopic" baseTopic h0
  have h2 := redis.acceptsHash_HSet _ _ "topic" (baseTopic ++ "." ++ topicId) h1
  have h3 := redis.acceptsHash_HSet _ _ "clientId" (strconv.FormatUint n) h2
  have h4 := redis.acceptsHash_HSet _ _ "topicId" topicId h3
  simp only [registryAfter,
    handle_Subscribe_special env s n options opts baseTopic topicId hconv hspecial hid]
  refine ⟨rfl, ?_, ?_, ?_, ?_, ?_, ?_⟩
  · simp only [Outcome.engine, redis.SMembers_HSet_other _ _ _ _ _ hne]
    exact redis.mem_SMembers_SAdd _ _ _ hset
  · simp [Outcome.engine, redis.HGet_HSet, h0, h1, h2, h3, h4]
  · simp [Outcome.engine, redis.HGet_HSet, h0, h1, h2, h3, h4]
  · simp [Outcome.engine, redis.HGet_HSet, h0, h1, h2, h3, h4]
  · simp [Outcome.engine, redis.HGet_HSet, h0, h1, h2, h3, h4]
  · simp [Outcome.engine, redis.HGet_HSet, h0, h1, h2, h3, h4]

/-- C3 amended, at a concrete input: topic `"room42.topicXYZ"`, requestor 7
and the empty filter on the empty registry give `"7"` in the members of
`"room42"` and `topicId = "topicXYZ"`. -/
theorem subscribe_then_lookup_witness :
    "7" ∈ redis.SMembers
      (registryAfter scenario.env start
        (turnpike.Message.Subscribe 7 (scenario.specialOptions []) "room42.topicXYZ"))
      "room42" ∧
    redis.HGet
      (registryAfter scenario.env start
        (turnpike.Message.Subscribe 7 (scenario.specialOptions []) "room42.topicXYZ"))
      "7" "topicId" = "topicXYZ" :=
  have h := subscribe_then_lookup scenario.env start 7 (scenario.specialOptions [])
    { Special := true, Filter := [], BaseTopic := "", Topic := "", ClientId := 0, TopicId := "" }
    "room42" "topicXYZ" rfl rfl (by decide) rfl rfl (by decide)
  ⟨h.2.1, h.2.2.2.2.2.1⟩

/-- C4. The code at the failing input: after a special Subscribe of requestor 7
on `"room42.topicXYZ"` and a Goodbye of requestor 7, the record keyed `"7"`
still holds all five fields; and in general Goodbye of requestor `n` deletes
the key `string(n)`, which is never the decimal string of `n`, so every field
of the record Subscribe wrote for `n` reads as before. -/
theorem goodbye_keeps_record :
    (∀ (env : Env) (s : Engine) (n : Nat) (field : String),
      redis.HGet (registryAfter env s (turnpike.Message.Goodbye n))
        (strconv.FormatUint n) field = redis.HGet s.registry (strconv.FormatUint n) field) ∧
    (let r := (run scenario.env
        [turnpike.Message.Subscribe 7 (scenario.specialOptions []) "room42.topicXYZ",
         turnpike.Message.Goodbye 7] start).engine.registry
     redis.HGet r "7" "baseTopic" = "room42" ∧
     redis.HGet r "7" "topic" = "room42.topicXYZ" ∧
     redis.HGet r "7" "clientId" = "7" ∧
     redis.HGet r "7" "topicId" = "topicXYZ" ∧
     redis.HGet r "7" "filter" = "\x7b\x7d") := by
  refine ⟨?_, by decide⟩
  intro env s n field
  exact redis.HGet_Del_other _ _ _ _ (Ne.symm (runeString_ne_FormatUint n))

/-- C5, as stated, fails: requestor 65 subscribes under base topic `"A"`, so
`"65"` is a member of the set `"A"`; the Goodbye of requestor 65 deletes the
key `string(65) = "A"`, which is that set, and `"65"` is no longer a member of
the base topic it subscribed under. -/
theorem goodbye_deletes_membership_set :
    runeString 65 = "A" ∧
    "65" ∈ redis.SMembers (run scenario.env
        [turnpike.Message.Subscribe 65 (scenario.specialOptions []) "A.x"]
        start).engine.registry "A" ∧
    "65" ∉ redis.SMembers (run scenario.env
        [turnpike.Message.Subscribe 65 (scenario.specialOptions []) "A.x",
         turnpike.Message.Goodbye 65] start).engine.registry "A" := by
  decide

/-- C5, amended. Goodbye of requestor `n` leaves every membership set that is
stored under another key than the one it deletes exactly as it was, whatever
the collaborators are. -/
theorem goodbye_keeps_memberships (env : Env) (s : Engine) (n : Nat) (key : String)
    (hkey : key ≠ runeString n) :
    (handle env s (turnpike.Message.Goodbye n)).panicked = false ∧
    redis.SMembers (registryAfter env s (turnpike.Message.Goodbye n)) key =
      redis.SMembers s.registry key :=
  ⟨rfl, redis.SMembers_Del_other _ _ _ hkey⟩

/-- C5 amended, at a concrete input: after the Goodbye of requestor 7, `"7"`
is still a member of the set `"room42"`. -/
theorem goodbye_keeps_memberships_witness :
    "7" ∈ redis.SMembers
      (registryAfter scenario.env
        (run scenario.env
          [turnpike.Message.Subscribe 7 (scenario.specialOptions []) "room42.topicXYZ"]
          start).engine
        (turnpike.Message.Goodbye 7)) "room42" :=
  (goodbye_keeps_memberships scenario.env _ 7 "room42" (by decide)).2 ▸ (by decide)


/-! ## Fan-out -/

theorem fanOut_delivers (env : Env) (msgRaw payload : JSON) (clientIds : List String)
    (s : Engine)
    (hsafe : ∀ c, c ∈ clientIds → passes payload (storedFilter env s.registry c) ≠ none) :
    fanOut env msgRaw payload clientIds s =
      Outcome.next
        { s with sent := s.sent ++ owedCalls env s.registry msgRaw payload clientIds } := by
  induction clientIds generalizing s with
  | nil => simp [fanOut, owedCalls]
  | cons c rest ih =>
    have hc := hsafe c (List.mem_cons_self _ _)
    have hrest : ∀ (s' : Engine), s'.registry = s.registry →
        ∀ c', c' ∈ rest → passes payload (storedFilter env s'.registry c') ≠ none := by
      intro s' hs' c' hc'
      rw [hs']
      exact hsafe c' (List.mem_cons_of_mem _ hc')
    unfold storedFilter at hc
    cases hp : passes payload ((env.FromString (redis.HGet s.registry c "filter")).getD []) with
    | none => exact absurd hp hc
    | some b =>
      cases b with
      | true =>
        simp only [fanOut, hp, ite_self]
        rw [ih { registry := s.registry, sent := s.sent ++
          [{ topic := redis.HGet s.registry c "topic", arg := msgRaw,
             failed := env.Publish (redis.HGet s.registry c "topic") msgRaw }] } (hrest _ rfl)]
        simp [owedCalls, storedFilter, hp, List.filter_cons]
      | false =>
        simp only [fanOut, hp]
        rw [ih _ (hrest _ rfl)]
        simp [owedCalls, storedFilter, hp, List.filter_cons]


/-- Fan-out when no filter comparison panics: for a Publish whose first
argument parses to an object with an object under `"pld"`, the engine goes on
to the next event and has issued exactly the owed publishes, one per member of
the topic's set whose stored filter passes, whether or not a publish failed. -/
theorem publish_delivers (env : Env) (s : Engine) (request : Nat) (options : JSON)
    (topic m : String) (rest : List JSONValue) (msgRaw payload : JSON)
    (hparse : env.FromString m = some msgRaw)
    (hpld : msgRaw.index "pld" = JSONValue.object payload)
    (hsafe : ∀ c, c ∈ redis.SMembers s.registry topic →
      passes payload (storedFilter env s.registry c) ≠ none) :
    handle env s (turnpike.Message.Publish request options topic (JSONValue.string m :: rest)) =
      Outcome.next
        { s with
          sent := (s.sent ++
            owedCalls env s.registry msgRaw payload (redis.SMembers s.registry topic)) } := by
  simp only [handle, onPublish, hparse, hpld]
  exact fanOut_delivers env msgRaw payload _ s hsafe

/-- Fan-out for literal-valued stored filters: no comparison can panic, so
the engine issues exactly the owed publishes. -/
theorem publish_delivers_of_literal_filters (env : Env) (s : Engine) (request : Nat)
    (options : JSON) (topic m : String) (rest : List JSONValue) (msgRaw payload : JSON)
    (hparse : env.FromString m = some msgRaw)
    (hpld : msgRaw.index "pld" = JSONValue.object payload)
    (hlit : ∀ c, c ∈ redis.SMembers s.registry topic →
      ∀ k v, (k, v) ∈ storedFilter env s.registry c → v.isLiteral = true) :
    handle env s (turnpike.Message.Publish request options topic (JSONValue.string m :: rest)) =
      Outcome.next
        { s with
          sent := (s.sent ++
            owedCalls env s.registry msgRaw payload (redis.SMembers s.registry topic)) } := by
  apply publish_delivers env s request options topic m rest msgRaw payload hparse hpld
  intro c hc hnone
  rcases passes_total_of_literal payload _ (hlit c hc) with h | h <;> simp [h] at hnone

/-- Subscribe, Goodbye and the other message kinds never panic; in
particular the index into the split topic is never out of range. -/
theorem handle_no_panic_outside_publish (env : Env) (s : Engine) :
    (∀ n options topic,
      (handle env s (turnpike.Message.Subscribe n options topic)).panicked = false) ∧
    (∀ n, (handle env s (turnpike.Message.Goodbye n)).panicked = false) ∧
    (handle env s turnpike.Message.Other).panicked = false := by
  refine ⟨?_, fun _ => rfl, rfl⟩
  intro n options topic
  obtain ⟨init, last, -, heq⟩ := splitSpecialTopic_eq (fmt.Sprintf "%v" [topic])
  simp only [handle, onSubscribe]
  cases env.Convert options with
  | none => rfl
  | some opts =>
    by_cases hsp : opts.IsSpecial = true
    · simp only [hsp, if_true, heq]; rfl
    · simp only [hsp]; rfl

/-- C6. The code at the failing input: requestor 7 subscribes under
`"room42"` with a filter that holds an object under `"a"`; the Publish on
`"room42"` of a message whose `"pld"` holds an object under `"a"` compares the
two maps, and the handler ends in a run-time panic. -/
theorem publish_panics_on_nested_filter :
    (run scenario.env
      [turnpike.Message.Subscribe 7
        (scenario.specialOptions [("a", JSONValue.object [])]) "room42.t7"]
      start).panicked = false ∧
    (handle scenario.env
      (run scenario.env
        [turnpike.Message.Subscribe 7
          (scenario.specialOptions [("a", JSONValue.object [])]) "room42.t7"]
        start).engine
      (turnpike.Message.Publish 1 [] "room42"
        [JSONValue.string "\x7b\"pld\":\x7b\"a\":\x7b\x7d\x7d\x7d"])).panicked = true := by
  decide

/-- C1. The code at the failing input: requestor 7 subscribes under
`"room42"` with a filter holding an object under `"a"`, requestor 8 with the
empty filter, so the members of `"room42"` are `"7"` then `"8"`. For the
Publish of a message whose `"pld"` holds an object under `"a"`, the stored
filter of `"8"` passes and its topic is `"room42.t8"`, yet the engine issues no
publish at all: the comparison for member `"7"` panics first. -/
theorem fanOut_panic_skips_passing_member :
    redis.SMembers (run scenario.env
      [turnpike.Message.Subscribe 7
        (scenario.specialOptions [("a", JSONValue.object [])]) "room42.t7",
       turnpike.Message.Subscribe 8 (scenario.specialOptions []) "room42.t8"]
      start).engine.registry "room42" = ["7", "8"] ∧
    passes [("a", JSONValue.object [])]
      (storedFilter scenario.env (run scenario.env
        [turnpike.Message.Subscribe 7
          (scenario.specialOptions [("a", JSONValue.object [])]) "room42.t7",
         turnpike.Message.Subscribe 8 (scenario.specialOptions []) "room42.t8"]
        start).engine.registry "8") = some true ∧
    redis.HGet (run scenario.env
      [turnpike.Message.Subscribe 7
        (scenario.specialOptions [("a", JSONValue.object [])]) "room42.t7",
       turnpike.Message.Subscribe 8 (scenario.specialOptions []) "room42.t8"]
      start).engine.registry "8" "topic" = "room42.t8" ∧
    scenario.sentTopics (run scenario.env
      [turnpike.Message.Subscribe 7
        (scenario.specialOptions [("a", JSONValue.object [])]) "room42.t7",
       turnpike.Message.Subscribe 8 (scenario.specialOptions []) "room42.t8",
       turnpike.Message.Publish 1 [] "room42"
        [JSONValue.string "\x7b\"pld\":\x7b\"a\":\x7b\x7d\x7d\x7d"]]
      start) = [] ∧
    (run scenario.env
      [turnpike.Message.Subscribe 7
        (scenario.specialOptions [("a", JSONValue.object [])]) "room42.t7",
       turnpike.Message.Subscribe 8 (scenario.specialOptions []) "room42.t8",
       turnpike.Message.Publish 1 [] "room42"
        [JSONValue.string "\x7b\"pld\":\x7b\"a\":\x7b\x7d\x7d\x7d"]]
      start).panicked = true := by
  decide

/-- The fan-out scenario of the specification: member `"7"` with the filter
`status = "done"` and member `"8"` with the empty filter under `"room42"`; a
message with `status = "done"` goes to both topics, one with `status = "todo"`
only to the topic of `"8"`. -/
theorem fanOut_scenario :
    scenario.sentTopics (run scenario.env
      [turnpike.Message.Subscribe 7
        (scenario.specialOptions [("status", JSONValue.string "done")]) "room42.t7",
       turnpike.Message.Subscribe 8 (scenario.specialOptions []) "room42.t8",
       turnpike.Message.Publish 1 [] "room42"
        [JSONValue.string "\x7b\"pld\":\x7b\"status\":\"done\"\x7d\x7d"]]
      start) = ["room42.t7", "room42.t8"] ∧
    scenario.sentTopics (run scenario.env
      [turnpike.Message.Subscribe 7
        (scenario.specialOptions [("status", JSONValue.string "done")]) "room42.t7",
       turnpike.Message.Subscribe 8 (scenario.specialOptions []) "room42.t8",
       turnpike.Message.Publish 1 [] "room42"
        [JSONValue.string "\x7b\"pld\":\x7b\"status\":\"todo\"\x7d\x7d"]]
      start) = ["room42.t8"] := by
  decide

/-! ## The RPC gateway -/

theorem getArgs_decoded (env : RpcEnv) (arg : JSONValue) (rest : List JSONValue)
    (m : messaging.Message) (hdec : env.decode arg = Except.ok m) :
    getArgs env (arg :: rest) =
      some (Except.ok (m, { App := m.App, Token := m.Token,
                            NotifyRealTime := m.Options.Notify.getD false })) := by
  simp only [getArgs, hdec]
  cases m.Options.Notify <;> rfl

/-- C10. For a first argument that decodes to the message `m`: when
`m.Payload["_id"]` is not a string (the key is absent or holds something
else), `data.remove` and `data.update` each return the call failure
`"Incorrect payload, ..."` and perform no backend call; when it is the string
`id` and the backend call succeeds, each returns `id` as its single result
value, with no error, after exactly that one backend call. -/
theorem rpc_remove_update_require_id (env : RpcEnv) (arg : JSONValue) (rest : List JSONValue)
    (m : messaging.Message) (hdec : env.decode arg = Except.ok m) :
    ((∀ id, m.Payload.index "_id" ≠ JSONValue.string id) →
      dataRemove env (arg :: rest) =
        RpcOutcome.done
          { Args := [], Err := "Incorrect payload, " ++ env.format m.Payload } [] ∧
      dataUpdate env (arg :: rest) =
        RpcOutcome.done
          { Args := [], Err := "Incorrect payload, " ++ env.format m.Payload } [] ∧
      "Incorrect payload, " ++ env.format m.Payload ≠ "") ∧
    (∀ id, m.Payload.index "_id" = JSONValue.string id →
      (∀ resp, env.backend
          { App := m.App, Token := m.Token, NotifyRealTime := m.Options.Notify.getD false }
          (BackendCall.DeleteItem m.Typ id) = Except.ok resp →
        dataRemove env (arg :: rest) =
          RpcOutcome.done { Args := [JSONValue.string id], Err := "" }
            [({ App := m.App, Token := m.Token, NotifyRealTime := m.Options.Notify.getD false },
              BackendCall.DeleteItem m.Typ id)]) ∧
      (∀ resp, env.backend
          { App := m.App, Token := m.Token, NotifyRealTime := m.Options.Notify.getD false }
          (BackendCall.UpdateItem m.Typ id m.Payload) = Except.ok resp →
        dataUpdate env (arg :: rest) =
          RpcOutcome.done { Args := [JSONValue.string id], Err := "" }
            [({ App := m.App, Token := m.Token, NotifyRealTime := m.Options.Notify.getD false },
              BackendCall.UpdateItem m.Typ id m.Payload)])) := by
  have hfmt : fmt.Sprintf "Incorrect payload, %v" [env.format m.Payload] =
      "Incorrect payload, " ++ env.format m.Payload := by
    apply String.ext
    have hf : "Incorrect payload, %v".data = "Incorrect payload, ".data ++ ['%', 'v'] := rfl
    have hl : "Incorrect payload, ".data =
        ['I', 'n', 'c', 'o', 'r', 'r', 'e', 'c', 't', ' ', 'p', 'a', 'y', 'l', 'o', 'a', 'd',
          ',', ' '] := rfl
    simp [fmt.Sprintf, hf, hl, fmt.sprintfChars, String.data_append]
  refine ⟨?_, ?_⟩
  · intro hno
    refine ⟨?_, ?_, ?_⟩
    · simp only [dataRemove, getArgs_decoded env arg rest m hdec]
      cases hid : m.Payload.index "_id" with
      | string id => exact absurd hid (hno id)
      | _ => simp only [hfmt]
    · simp only [dataUpdate, getArgs_decoded env arg rest m hdec]
      cases hid : m.Payload.index "_id" with
      | string id => exact absurd hid (hno id)
      | _ => simp only [hfmt]
    · intro h
      have := congrArg String.length h
      simp [String.length_append] at this
      exact absurd this.1 (by decide)
  · intro id hid
    refine ⟨?_, ?_⟩
    · intro resp hresp
      simp only [dataRemove, getArgs_decoded env arg rest m hdec, hid, hresp]
    · intro resp hresp
      simp only [dataUpdate, getArgs_decoded env arg rest m hdec, hid, hresp]

/-- C10, at a concrete input: `data.remove` called with a payload that has a
`"title"` and no `"_id"` returns the malformed-payload failure and performs no
backend call. -/
theorem rpc_remove_update_require_id_witness :
    dataRemove scenario.rpcEnv
      [JSONValue.object [("payload", JSONValue.object [("title", JSONValue.string "a")])]] =
      RpcOutcome.done { Args := [], Err := "Incorrect payload, map[title:a]" } [] :=
  ((rpc_remove_update_require_id scenario.rpcEnv
      (JSONValue.object [("payload", JSONValue.object [("title", JSONValue.string "a")])]) []
      { App := "x", Typ := "todos", Operation := "", Token := "",
        Payload := [("title", JSONValue.string "a")], Options := { Notify := none }, Topic := "" }
      rfl).1 (fun id h => by cases h)).1

end Realbase
